import Mathlib

/-!
BLE to CC1101 bridge (`src/main.cpp`): the command and session layer.

The firmware is a set of callbacks over global state.  Each callback is embedded as a
function that returns the list of effects it performs, in program order: lines written to
the serial console, calls into the radio driver, BLE notifications.  The Arduino `String`
methods the callbacks use (`indexOf`, `substring`, `equalsIgnoreCase`) are written out
with their C semantics, including the conversion of a `-1` index to `unsigned int`.
-/

namespace Bridge

/-- Text as the firmware holds it: a sequence of one-byte characters. -/
abbrev Str := List Char

/-! ## Arduino `String` and the C library -/

/-- The terminator of a C string. -/
def NUL : Char := Char.ofNat 0

/-- The Arduino string built by `String(value.c_str())`: the bytes of `value` before its
first NUL. -/
def cStr (value : Str) : Str := value.takeWhile (fun c => c != NUL)

/-- Conversion of an `int` argument to an `unsigned int` parameter (32 bits). -/
def toUnsigned (i : Int) : Nat := (i % 4294967296).toNat

/-- Offset of the first occurrence of `pat` in `s`, as C `strstr` finds it. -/
def strstr (pat : Str) : Str → Option Nat
  | [] => if pat.isPrefixOf [] then some 0 else none
  | c :: t => if pat.isPrefixOf (c :: t) then some 0 else (strstr pat t).map (fun k => k + 1)

/-- Offset of the first occurrence of the character `ch` in `s`, as C `strchr` finds it. -/
def strchr (ch : Char) : Str → Option Nat
  | [] => none
  | c :: t => if c = ch then some 0 else (strchr ch t).map (fun k => k + 1)

/-- Arduino `String::indexOf(const String &s2, unsigned int fromIndex)`. -/
def indexOfFrom (s pat : Str) (fromIndex : Nat) : Int :=
  if fromIndex ≥ s.length then -1
  else
    match strstr pat (s.drop fromIndex) with
    | none => -1
    | some k => ((fromIndex + k : Nat) : Int)

/-- Arduino `String::indexOf(const String &s2)`, which searches from index 0. -/
def indexOf (s pat : Str) : Int := indexOfFrom s pat 0

/-- Arduino `String::indexOf(char ch, unsigned int fromIndex)`. -/
def indexOfCharFrom (s : Str) (ch : Char) (fromIndex : Nat) : Int :=
  if fromIndex ≥ s.length then -1
  else
    match strchr ch (s.drop fromIndex) with
    | none => -1
    | some k => ((fromIndex + k : Nat) : Int)

/-- Arduino `String::substring(unsigned int left, unsigned int right)`: the bounds are
swapped when out of order, an empty string is returned when `left` is past the end, and
`right` is clamped to the length. -/
def substring (s : Str) (left right : Nat) : Str :=
  let lo := if left > right then right else left
  let hi := if left > right then left else right
  if lo ≥ s.length then []
  else
    let hi2 := if hi > s.length then s.length else hi
    (s.drop lo).take (hi2 - lo)

/-- Arduino `String::equalsIgnoreCase`: equal lengths and equal characters after `tolower`. -/
def equalsIgnoreCase (s s2 : Str) : Bool :=
  if s.length ≠ s2.length then false
  else if s.length = 0 then true
  else (s.zip s2).all (fun p => p.1.toLower == p.2.toLower)

/-- The text `String(millis())`: the decimal digits of the clock reading. -/
def decimal (n : Nat) : Str := Nat.toDigits 10 n

/-! ## Effects of the configuration handler -/

/-- The constant `RADIOLIB_ERR_NONE`, the driver's success status. -/
def RADIOLIB_ERR_NONE : Int := 0

/-- The largest value of an `int` on the target. -/
def INT_MAX : Nat := 2147483647

/-- What the configuration handler does to the outside, one constructor per statement with
an effect.  `F` is the type of the `float` handed to the radio. -/
inductive Event (F : Type) where
  /-- The call `Serial.println(line)`. -/
  | println (line : Str)
  /-- The call `Serial.printf("Frequency set to %.1f MHz\n", frequency)`. -/
  | printfFrequencySet (frequency : F)
  /-- The call `Serial.printf("Failed to set frequency, code %d\n", state)`. -/
  | printfFrequencyFailed (state : Int)
  /-- The call `Serial.printf("Power setting received: %d (Not implemented)\n", power)`. -/
  | printfPower (power : Int)
  /-- The call `radio.setFrequency(frequency)`. -/
  | setFrequency (frequency : F)
  /-- The call `radio.setOOK(enable)`. -/
  | setOOK (enable : Bool)
  deriving DecidableEq

/-- The library and driver functions the handler calls and whose code is not in
`main.cpp`: the two numeric conversions of `String` and the status the radio driver
returns from `setFrequency`. -/
structure Platform (F : Type) where
  /-- Arduino `String::toFloat`. -/
  toFloat : Str → F
  /-- Arduino `String::toInt`. -/
  toInt : Str → Int
  /-- status code of `radio.setFrequency` -/
  setFrequency : F → Int

/-- The lookup each of the four blocks of `ConfigCallbacks::onWrite` starts with:
`idx = cmd.indexOf(key)`; when `idx != -1`, `end = cmd.indexOf(';', idx)` and the value is
`cmd.substring(idx + skip, end)`. -/
def lookup (cmd key : Str) (skip : Nat) : Option Str :=
  let idx := indexOf cmd key
  if idx ≠ -1 then
    let stop := indexOfCharFrom cmd ';' (toUnsigned idx)
    some (substring cmd (toUnsigned (idx + skip)) (toUnsigned stop))
  else none

/-- Body of the `FREQ:` block (lines 94-104). -/
def applyFreq {F : Type} (p : Platform F) (freqStr : Str) : List (Event F) :=
  let frequency := p.toFloat freqStr
  let state := p.setFrequency frequency
  [Event.setFrequency frequency,
   if state = RADIOLIB_ERR_NONE then Event.printfFrequencySet frequency
   else Event.printfFrequencyFailed state]

/-- Body of the `MOD:` block (lines 112-126). -/
def applyMod {F : Type} (modStr : Str) : List (Event F) :=
  if equalsIgnoreCase modStr "OOK".toList then
    [Event.setOOK true, Event.println "Modulation set to OOK.".toList]
  else if equalsIgnoreCase modStr "FSK".toList then
    [Event.setOOK false, Event.println "Modulation set to FSK.".toList]
  else
    [Event.println "Invalid Modulation Type.".toList]

/-- Body of the `PWR:` block (lines 134-138). -/
def applyPwr {F : Type} (p : Platform F) (pwrStr : Str) : List (Event F) :=
  [Event.printfPower (p.toInt pwrStr)]

/-- Body of the `ROLE:` block (lines 146-160). -/
def applyRole {F : Type} (roleStr : Str) : List (Event F) :=
  if equalsIgnoreCase roleStr "Transmitter".toList then
    [Event.println "Role set to Transmitter.".toList]
  else if equalsIgnoreCase roleStr "Receiver".toList then
    [Event.println "Role set to Receiver.".toList]
  else
    [Event.println "Invalid Role Type.".toList]

/-- The effects of one block: nothing when the key was not found. -/
def block {F : Type} (found : Option Str) (body : Str → List (Event F)) : List (Event F) :=
  match found with
  | some v => body v
  | none => []

/-- The handler `ConfigCallbacks::onWrite` on the written payload `value`. -/
def ConfigCallbacks.onWrite {F : Type} (p : Platform F) (value : Str) : List (Event F) :=
  if value.length > 0 then
    let cmd := cStr value
    [Event.println "Received Configuration Command:".toList, Event.println cmd]
      ++ block (lookup cmd "FREQ:".toList 5) (applyFreq p)
      ++ block (lookup cmd "MOD:".toList 4) applyMod
      ++ block (lookup cmd "PWR:".toList 4) (applyPwr p)
      ++ block (lookup cmd "ROLE:".toList 5) applyRole
  else []

/-- The calls into the radio driver among the effects, in order. -/
def radioCalls {F : Type} (es : List (Event F)) : List (Event F) :=
  es.filter (fun e =>
    match e with
    | Event.setFrequency _ => true
    | Event.setOOK _ => true
    | _ => false)

/-- The arguments of the `setFrequency` calls among the effects, in order. -/
def frequencies {F : Type} (es : List (Event F)) : List F :=
  es.filterMap (fun e =>
    match e with
    | Event.setFrequency f => some f
    | _ => none)

/-- The two lines every non-empty configuration write prints before it looks for keys. -/
def received {F : Type} (value : Str) : List (Event F) :=
  [Event.println "Received Configuration Command:".toList, Event.println (cStr value)]

/-! ## A reference platform for concrete runs -/

/-- C `isspace` in the "C" locale. -/
def isspace (c : Char) : Bool :=
  c == ' ' || c == '\t' || c == '\n' || c == '\x0b' || c == '\x0c' || c == '\r'

/-- C `isdigit`. -/
def isdigit (c : Char) : Bool := decide ('0' ≤ c) && decide (c ≤ '9')

/-- Value of a run of decimal digits. -/
def digitsValue (ds : Str) : Nat := ds.foldl (fun n c => 10 * n + (c.toNat - 48)) 0

/-- An optional sign in front of a number: whether it is `-`, and the rest. -/
def takeSign : Str → Bool × Str
  | '-' :: t => (true, t)
  | '+' :: t => (false, t)
  | s => (false, s)

/-- C `atol` (behind `String::toInt`): leading white space, an optional sign, decimal
digits; the result saturates at the range of a 32-bit `long`. -/
def atol (s : Str) : Int :=
  let body := takeSign (s.dropWhile isspace)
  let n : Int := digitsValue (body.2.takeWhile isdigit)
  let v : Int := if body.1 then -n else n
  if v > 2147483647 then 2147483647 else if v < -2147483648 then -2147483648 else v

/-- C `atof` (behind `String::toFloat`) on decimal text: leading white space, an optional
sign, digits with an optional fraction and an optional exponent.  The result is the exact
decimal value, which the target then rounds to a `float`; the hexadecimal, infinity and
NaN spellings are not covered. -/
def atof (s : Str) : ℚ :=
  let body := takeSign (s.dropWhile isspace)
  let ip := body.2.takeWhile isdigit
  let afterInt := body.2.dropWhile isdigit
  let fp := match afterInt with
    | '.' :: t => t.takeWhile isdigit
    | _ => []
  let afterFrac := match afterInt with
    | '.' :: t => t.dropWhile isdigit
    | _ => afterInt
  if ip.length + fp.length = 0 then 0
  else
    let ex : Int := match afterFrac with
      | c :: t =>
        if c = 'e' ∨ c = 'E' then
          let es := takeSign t
          let ed := es.2.takeWhile isdigit
          if es.1 then - (digitsValue ed : Int) else (digitsValue ed : Int)
        else 0
      | [] => 0
    let m : Int :=
      if body.1 then - (digitsValue (ip ++ fp) : Int) else (digitsValue (ip ++ fp) : Int)
    let sh : Int := ex - (fp.length : Int)
    if 0 ≤ sh then mkRat (m * 10 ^ sh.toNat) 1 else mkRat m (10 ^ (-sh).toNat)

/-- A platform for running the handler on concrete commands: the C conversions above and a
radio that accepts every frequency. -/
def bench : Platform ℚ where
  toFloat := atof
  toInt := atol
  setFrequency := fun _ => RADIOLIB_ERR_NONE

/-! ## Connection, handshake and message exchange -/

/-- The three characteristics the firmware notifies on. -/
inductive Channel where
  | log
  | message
  | handshakeTx
  deriving DecidableEq

/-- Effects of the BLE callbacks and of `loop`. -/
inductive BleEvent where
  /-- The call `Serial.println(line)`. -/
  | println (line : Str)
  /-- A call of `notify()` on a characteristic, with the value it holds at that moment. -/
  | notify (ch : Channel) (value : Str)
  /-- The call `pServer->startAdvertising()`. -/
  | startAdvertising
  deriving DecidableEq

/-- The globals the callbacks and `loop` read and write: the connection flag and the
values held by the log, message and handshake-response characteristics. -/
structure State where
  deviceConnected : Bool
  logValue : Str
  messageValue : Str
  handshakeTxValue : Str
  deriving DecidableEq

/-- The callback `MyServerCallbacks::onConnect`. -/
def MyServerCallbacks.onConnect (s : State) : State × List BleEvent :=
  ({ s with deviceConnected := true }, [BleEvent.println "BLE Device Connected.".toList])

/-- The callback `MyServerCallbacks::onDisconnect`. -/
def MyServerCallbacks.onDisconnect (s : State) : State × List BleEvent :=
  ({ s with deviceConnected := false },
   [BleEvent.println "BLE Device Disconnected.".toList,
    BleEvent.startAdvertising,
    BleEvent.println "BLE Advertising Restarted.".toList])

/-- The handler `HandshakeCallbacks::onWrite` on the written payload `value`. -/
def HandshakeCallbacks.onWrite (s : State) (value : Str) : State × List BleEvent :=
  if value.length > 0 then
    let response := "Handshake_OK".toList
    ({ s with handshakeTxValue := response },
     [BleEvent.println ("Received Handshake Message: ".toList ++ cStr value),
      BleEvent.notify Channel.handshakeTx response,
      BleEvent.println ("Sent Handshake Response: ".toList ++ cStr response)])
  else (s, [])

/-- The handler `MessageCallbacks::onWrite`.  The BLE stack has stored the written payload
as the value of the message characteristic before it calls the handler, so `getValue()`
returns the payload. -/
def MessageCallbacks.onWrite (s : State) (payload : Str) : State × List BleEvent :=
  let s1 := { s with messageValue := payload }
  let value := s1.messageValue
  if value.length > 0 then
    (s1, [BleEvent.println "Received Message:".toList, BleEvent.println (cStr value)])
  else (s1, [])

/-- One pass of `loop`; `t1` and `t2` are the two readings of `millis()`. -/
def loop (s : State) (t1 t2 : Nat) : State × List BleEvent :=
  if s.deviceConnected then
    let logData := "Log data from ESP32: ".toList ++ decimal t1
    let s1 := { s with logValue := cStr logData }
    let receivedMessage := s1.messageValue
    if ¬ receivedMessage.isEmpty then
      let ackMessage := "ESP32 ACK: ".toList ++ decimal t2
      let s2 := { s1 with messageValue := cStr ackMessage }
      (s2,
       [BleEvent.notify Channel.log s1.logValue,
        BleEvent.println ("Sent Log Data: ".toList ++ logData),
        BleEvent.println "Received Message from Computer:".toList,
        BleEvent.println (cStr receivedMessage),
        BleEvent.notify Channel.message s2.messageValue,
        BleEvent.println ("Sent ACK Message: ".toList ++ ackMessage)])
    else
      (s1,
       [BleEvent.notify Channel.log s1.logValue,
        BleEvent.println ("Sent Log Data: ".toList ++ logData)])
  else (s, [])

/-- What can happen to the session layer. -/
inductive Input where
  | connect
  | disconnect
  | handshakeWrite (payload : Str)
  | messageWrite (payload : Str)
  | tick (t1 t2 : Nat)
  deriving DecidableEq

/-- Dispatch of one input to its callback. -/
def step (s : State) : Input → State × List BleEvent
  | Input.connect => MyServerCallbacks.onConnect s
  | Input.disconnect => MyServerCallbacks.onDisconnect s
  | Input.handshakeWrite v => HandshakeCallbacks.onWrite s v
  | Input.messageWrite v => MessageCallbacks.onWrite s v
  | Input.tick t1 t2 => loop s t1 t2

/-- Run the inputs in order; the effects of each input are kept apart. -/
def run (s : State) : List Input → State × List (List BleEvent)
  | [] => (s, [])
  | i :: is =>
    let r := step s i
    let rest := run r.1 is
    (rest.1, r.2 :: rest.2)

/-- The values notified on channel `ch` among the effects, in order. -/
def notified (ch : Channel) (es : List BleEvent) : List Str :=
  es.filterMap (fun e =>
    match e with
    | BleEvent.notify c v => if c = ch then some v else none
    | _ => none)

/-- Number of `startAdvertising` instructions among the effects. -/
def advertisingRestarts (es : List BleEvent) : Nat :=
  es.count BleEvent.startAdvertising

/-! ## Facts about the string functions -/

theorem toList_FREQ : "FREQ:".toList = ['F', 'R', 'E', 'Q', ':'] := rfl
theorem toList_MOD : "MOD:".toList = ['M', 'O', 'D', ':'] := rfl
theorem toList_PWR : "PWR:".toList = ['P', 'W', 'R', ':'] := rfl
theorem toList_ROLE : "ROLE:".toList = ['R', 'O', 'L', 'E', ':'] := rfl

/-- The search `strstr` fails exactly when the pattern occurs nowhere. -/
theorem strstr_eq_none_iff (pat s : Str) : strstr pat s = none ↔ ¬ pat <:+: s := by
  induction s with
  | nil => simp [strstr]
  | cons c t ih =>
    by_cases h : pat <+: c :: t
    · simp [strstr, h, List.infix_cons_iff]
    · simp [strstr, h, List.infix_cons_iff, ih]

theorem strstr_at_start (pat s : Str) (h : pat <+: s) : strstr pat s = some 0 := by
  cases s with
  | nil => simp [strstr, h]
  | cons c t => simp [strstr, h]

theorem strstr_cons_neg (pat : Str) (c : Char) (t : Str) (h : ¬ pat <+: c :: t) :
    strstr pat (c :: t) = (strstr pat t).map (fun k => k + 1) := by
  simp [strstr, h]

/-- A pattern without the separator cannot start inside a text that ends with the separator
and run past its end. -/
theorem starts_append_sep (pat c t : Str) (hp : ';' ∉ pat) (hc : c.getLast? = some ';') :
    pat <+: c ++ t ↔ pat <+: c := by
  constructor
  · intro h
    rcases le_total pat.length c.length with hl | hl
    · exact List.prefix_of_prefix_length_le h (List.prefix_append c t) hl
    · have hcp : c <+: pat := List.prefix_of_prefix_length_le (List.prefix_append c t) h hl
      have hm : ';' ∈ c := List.mem_of_getLast?_eq_some hc
      exact absurd (hcp.subset hm) hp
  · intro h
    exact h.trans (List.prefix_append c t)

theorem getLast?_tail_sep (a : Char) (c : Str) (h : (a :: c).getLast? = some ';') :
    c = [] ∨ c.getLast? = some ';' := by
  cases c with
  | nil => exact Or.inl rfl
  | cons b c' => right; simpa [List.getLast?_cons_cons] using h

/-- Searching a text that is empty or ends with the separator, followed by more text: the
first occurrence inside the text is found, and otherwise the search moves on behind it. -/
theorem strstr_append_sep (pat : Str) (hp : ';' ∉ pat) (hne : pat ≠ []) (t : Str) :
    ∀ c : Str, (c = [] ∨ c.getLast? = some ';') →
      strstr pat (c ++ t) =
        match strstr pat c with
        | some i => some i
        | none => (strstr pat t).map (fun k => k + c.length) := by
  intro c
  induction c with
  | nil =>
    intro _
    have : strstr pat [] = none := by simp [strstr, hne]
    simp [this]
  | cons a c ih =>
    intro hc
    have hlast : (a :: c).getLast? = some ';' := by
      rcases hc with h | h
      · exact absurd h (List.cons_ne_nil a c)
      · exact h
    have hpre := starts_append_sep pat (a :: c) t hp hlast
    have ih2 := ih (getLast?_tail_sep a c hlast)
    by_cases h : pat <+: a :: c
    · have h2 : pat <+: a :: (c ++ t) := by simpa using hpre.2 h
      rw [List.cons_append, strstr_at_start _ _ h2, strstr_at_start _ _ h]
    · have h2 : ¬ pat <+: a :: (c ++ t) := by
        intro h3; exact h (hpre.1 (by simpa using h3))
      rw [List.cons_append, strstr_cons_neg _ _ _ h2, strstr_cons_neg _ _ _ h, ih2]
      cases strstr pat c with
      | some i => rfl
      | none =>
        cases strstr pat t with
        | none => rfl
        | some k => simp only [Option.map_some, Option.map, List.length_cons, Option.some.injEq]; omega


/-! ### C strings -/

theorem cStr_of_not_mem (s : Str) (h : NUL ∉ s) : cStr s = s := by
  unfold cStr
  rw [List.takeWhile_eq_self_iff]
  intro x hx
  have : x ≠ NUL := fun e => h (e ▸ hx)
  simpa using this

theorem cStr_append_of_not_mem (a b : Str) (h : NUL ∉ a) : cStr (a ++ b) = a ++ cStr b := by
  induction a with
  | nil => rfl
  | cons x a ih =>
    have hx : x ≠ NUL := fun e => h (e ▸ List.mem_cons_self x a)
    have ha : NUL ∉ a := fun m => h (List.mem_cons_of_mem x m)
    have ih2 := ih ha
    unfold cStr at ih2 ⊢
    simp [List.takeWhile_cons, hx, ih2]

theorem cStr_append_of_mem (a b : Str) (h : NUL ∈ a) : cStr (a ++ b) = cStr a := by
  induction a with
  | nil => simp at h
  | cons x a ih =>
    by_cases hx : x = NUL
    · simp [cStr, List.takeWhile_cons, hx]
    · have ha : NUL ∈ a := by
        rcases List.mem_cons.1 h with e | m
        · exact absurd e.symm hx
        · exact m
      have ih2 := ih ha
      unfold cStr at ih2 ⊢
      simp [List.takeWhile_cons, hx, ih2]

theorem cStr_initial (s : Str) : cStr s <+: s := List.takeWhile_prefix _

theorem cStr_not_mem_of_not_mem (c : Char) (s : Str) (h : c ∉ s) : c ∉ cStr s :=
  fun m => h ((cStr_initial s).subset m)

/-! ### `strchr` -/

theorem strchr_eq_none (ch : Char) (s : Str) (h : ch ∉ s) : strchr ch s = none := by
  induction s with
  | nil => rfl
  | cons x s ih =>
    have hx : x ≠ ch := fun e => h (e ▸ List.mem_cons_self x s)
    have hs : ch ∉ s := fun m => h (List.mem_cons_of_mem x m)
    simp [strchr, hx, ih hs]

theorem strchr_append_of_mem (ch : Char) (a b : Str) (h : ch ∈ a) :
    strchr ch (a ++ b) = strchr ch a := by
  induction a with
  | nil => simp at h
  | cons x a ih =>
    by_cases hx : x = ch
    · simp [strchr, hx]
    · have ha : ch ∈ a := by
        rcases List.mem_cons.1 h with e | m
        · exact absurd e.symm hx
        · exact m
      simp [strchr, hx, ih ha]

theorem strchr_append_cons (ch : Char) (a b : Str) (h : ch ∉ a) :
    strchr ch (a ++ ch :: b) = some a.length := by
  induction a with
  | nil => simp [strchr]
  | cons x a ih =>
    have hx : x ≠ ch := fun e => h (e ▸ List.mem_cons_self x a)
    have ha : ch ∉ a := fun m => h (List.mem_cons_of_mem x m)
    simp [strchr, hx, ih ha]

theorem strchr_lt (ch : Char) (s : Str) (k : Nat) (h : strchr ch s = some k) : k < s.length := by
  induction s generalizing k with
  | nil => simp [strchr] at h
  | cons x s ih =>
    by_cases hx : x = ch
    · simp [strchr, hx] at h
      subst h
      simp
    · simp only [strchr, hx, if_false] at h
      cases hk : strchr ch s with
      | none => simp [hk] at h
      | some j =>
        simp [hk] at h
        have := ih j hk
        simp only [List.length_cons]
        omega

/-! ### Index conversion -/

theorem toUnsigned_natCast (n : Nat) (h : n < 4294967296) : toUnsigned (n : Int) = n := by
  unfold toUnsigned
  omega

theorem toUnsigned_le (n : Nat) : toUnsigned (n : Int) ≤ n := by
  unfold toUnsigned
  omega

theorem toUnsigned_neg_one : toUnsigned (-1) = 4294967295 := by decide

/-! ### The key lookup -/

theorem indexOf_eq (s pat : Str) (k : Nat) (h : strstr pat s = some k) (hs : s ≠ []) :
    indexOf s pat = (k : Int) := by
  have hl : ¬ (0 ≥ s.length) := by
    have := List.length_pos.2 hs
    omega
  simp [indexOf, indexOfFrom, hl, h]

theorem indexOf_eq_neg_one (s pat : Str) (h : strstr pat s = none) : indexOf s pat = -1 := by
  unfold indexOf indexOfFrom
  split
  · rfl
  · simp [h]

theorem lookup_eq_none (cmd key : Str) (skip : Nat) (h : ¬ key <:+: cmd) :
    lookup cmd key skip = none := by
  have := indexOf_eq_neg_one cmd key ((strstr_eq_none_iff key cmd).2 h)
  simp [lookup, this]

/-- The value of a well-delimited directive: when the first occurrence of `key` is the one
after `pre` and the value `a` is closed by a `;`, the lookup returns `a`. -/
theorem lookup_delimited (pre key a rest : Str)
    (hfirst : strstr key (pre ++ key ++ a ++ ';' :: rest) = some pre.length)
    (hk : ';' ∉ key) (ha : ';' ∉ a)
    (hlen : (pre ++ key ++ a ++ ';' :: rest).length ≤ INT_MAX) :
    lookup (pre ++ key ++ a ++ ';' :: rest) key key.length = some a := by
  have hne : pre ++ key ++ a ++ ';' :: rest ≠ [] := by simp
  have hidx := indexOf_eq _ _ _ hfirst hne
  simp only [List.length_append, List.length_cons, INT_MAX] at hlen
  have hu1 : toUnsigned (pre.length : Int) = pre.length := toUnsigned_natCast _ (by omega)
  have hdrop : (pre ++ key ++ a ++ ';' :: rest).drop pre.length = (key ++ a) ++ ';' :: rest := by
    simp [List.append_assoc, List.drop_append_eq_append_drop]
  have hka : ';' ∉ key ++ a := by simp [hk, ha]
  have hstop : indexOfCharFrom (pre ++ key ++ a ++ ';' :: rest) ';' pre.length
      = ((pre.length + (key.length + a.length) : Nat) : Int) := by
    have hl : ¬ (pre.length ≥ (pre ++ key ++ a ++ ';' :: rest).length) := by
      simp only [List.length_append, List.length_cons]; omega
    unfold indexOfCharFrom
    rw [if_neg hl, hdrop, strchr_append_cons _ _ _ hka, List.length_append]
  have hu2 : toUnsigned (((pre.length : Nat) : Int) + (key.length : Nat))
      = pre.length + key.length := by
    rw [← Int.natCast_add]; exact toUnsigned_natCast _ (by omega)
  have hu3 : toUnsigned ((pre.length + (key.length + a.length) : Nat) : Int)
      = pre.length + (key.length + a.length) := toUnsigned_natCast _ (by omega)
  have hneg : ((pre.length : Nat) : Int) ≠ -1 := by omega
  simp only [lookup, hidx, hneg, ne_eq, not_false_eq_true, if_true, hu1, hstop, hu2, hu3]
  have hsub : substring (pre ++ key ++ a ++ ';' :: rest) (pre.length + key.length)
      (pre.length + (key.length + a.length)) = a := by
    unfold substring
    have h1 : ¬ (pre.length + key.length > pre.length + (key.length + a.length)) := by omega
    have h2 : ¬ (pre.length + key.length ≥ (pre ++ key ++ a ++ ';' :: rest).length) := by
      simp only [List.length_append, List.length_cons]; omega
    have h3 : ¬ (pre.length + (key.length + a.length)
        > (pre ++ key ++ a ++ ';' :: rest).length) := by
      simp only [List.length_append, List.length_cons]; omega
    simp only [h1, if_false, h2, h3]
    have hd : (pre ++ key ++ a ++ ';' :: rest).drop (pre.length + key.length)
        = a ++ ';' :: rest := by
      have : pre ++ key ++ a ++ ';' :: rest = (pre ++ key) ++ (a ++ ';' :: rest) := by
        simp [List.append_assoc]
      rw [this, ← List.length_append, List.drop_left]
    rw [hd]
    have : pre.length + (key.length + a.length) - (pre.length + key.length) = a.length := by
      omega
    rw [this, List.take_left]
  rw [hsub]


theorem strstr_after_sep (pre key t : Str) (hk : ';' ∉ key) (hne : key ≠ [])
    (hpre : pre = [] ∨ pre.getLast? = some ';') (hno : ¬ key <:+: pre) :
    strstr key (pre ++ (key ++ t)) = some pre.length := by
  rw [strstr_append_sep key hk hne _ pre hpre, (strstr_eq_none_iff key pre).2 hno,
    strstr_at_start key (key ++ t) (List.prefix_append key t)]
  simp

theorem infix_append_sep (pat c t : Str) (hp : ';' ∉ pat) (hne : pat ≠ [])
    (hc : c = [] ∨ c.getLast? = some ';') :
    pat <:+: c ++ t ↔ pat <:+: c ∨ pat <:+: t := by
  constructor
  · intro h
    by_contra hcon
    push_neg at hcon
    have h1 := (strstr_eq_none_iff pat c).2 hcon.1
    have h2 := (strstr_eq_none_iff pat t).2 hcon.2
    have h3 := strstr_append_sep pat hp hne t c hc
    rw [h1, h2] at h3
    exact (strstr_eq_none_iff pat (c ++ t)).1 h3 h
  · rintro (h | h)
    · exact h.trans (List.infix_append' [] c t)
    · exact h.trans (List.suffix_append c t).isInfix

theorem not_infix_of_not_mem (ch : Char) (key x : Str) (hk : ch ∈ key) (hx : ch ∉ x) :
    ¬ key <:+: x :=
  fun h => hx (h.subset hk)

theorem sep_end (x : Str) : x ++ [';'] = [] ∨ (x ++ [';']).getLast? = some ';' :=
  Or.inr (List.getLast?_concat x)

theorem sep_end_append (c x : Str) :
    c ++ (x ++ [';']) = [] ∨ (c ++ (x ++ [';'])).getLast? = some ';' := by
  rw [← List.append_assoc]
  exact sep_end (c ++ x)

/-- The value of a directive that follows complete segments none of which holds its key. -/
theorem lookup_segment (pre key a rest : Str)
    (hk : ';' ∉ key) (hne : key ≠ []) (ha : ';' ∉ a)
    (hpre : pre = [] ∨ pre.getLast? = some ';') (hno : ¬ key <:+: pre)
    (hlen : (pre ++ key ++ a ++ ';' :: rest).length ≤ INT_MAX) :
    lookup (pre ++ key ++ a ++ ';' :: rest) key key.length = some a := by
  apply lookup_delimited pre key a rest _ hk ha hlen
  have := strstr_after_sep pre key (a ++ ';' :: rest) hk hne hpre hno
  simpa [List.append_assoc] using this


/-! ### Shape of the handler's effects -/

theorem onWrite_of_ne_nil {F : Type} (p : Platform F) (value : Str) (h : value ≠ []) :
    ConfigCallbacks.onWrite p value =
      received value
        ++ block (lookup (cStr value) "FREQ:".toList 5) (applyFreq p)
        ++ block (lookup (cStr value) "MOD:".toList 4) applyMod
        ++ block (lookup (cStr value) "PWR:".toList 4) (applyPwr p)
        ++ block (lookup (cStr value) "ROLE:".toList 5) applyRole := by
  have hl : value.length > 0 := List.length_pos.2 h
  simp [ConfigCallbacks.onWrite, hl, received]

theorem radioCalls_append {F : Type} (a b : List (Event F)) :
    radioCalls (a ++ b) = radioCalls a ++ radioCalls b := by
  simp [radioCalls]

theorem radioCalls_received {F : Type} (value : Str) :
    radioCalls (received value : List (Event F)) = [] := rfl

theorem radioCalls_block_pwr {F : Type} (p : Platform F) (o : Option Str) :
    radioCalls (block o (applyPwr p)) = [] := by
  cases o <;> rfl

theorem radioCalls_block_role {F : Type} (o : Option Str) :
    radioCalls (block o applyRole : List (Event F)) = [] := by
  cases o with
  | none => rfl
  | some v =>
    simp only [block, applyRole]
    split_ifs <;> rfl

theorem frequencies_append {F : Type} (a b : List (Event F)) :
    frequencies (a ++ b) = frequencies a ++ frequencies b := by
  simp [frequencies]

theorem frequencies_block_mod {F : Type} (o : Option Str) :
    frequencies (block o applyMod : List (Event F)) = [] := by
  cases o with
  | none => rfl
  | some v =>
    simp only [block, applyMod]
    split_ifs <;> rfl

theorem frequencies_block_pwr {F : Type} (p : Platform F) (o : Option Str) :
    frequencies (block o (applyPwr p)) = [] := by
  cases o <;> rfl

theorem frequencies_block_role {F : Type} (o : Option Str) :
    frequencies (block o applyRole : List (Event F)) = [] := by
  cases o with
  | none => rfl
  | some v =>
    simp only [block, applyRole]
    split_ifs <;> rfl

/-- C9. A configuration write whose payload has length 0 has no effect at all: no line is
printed, no directive is applied and the radio is not called. -/
theorem config_empty_noop {F : Type} (p : Platform F) (value : Str) (h : value.length = 0) :
    ConfigCallbacks.onWrite p value = []
    ∧ radioCalls (ConfigCallbacks.onWrite p value) = [] := by
  have hv : ¬ value.length > 0 := by omega
  have hrun : ConfigCallbacks.onWrite p value = [] := by
    simp only [ConfigCallbacks.onWrite, hv, if_false]
  exact ⟨hrun, by rw [hrun]; rfl⟩

/-- C1 (amended). For values `f`, `m`, `r` that contain none of `;`, `:` and NUL, in a
command short enough for `int` indices, the handler run on
`"FREQ:" ++ f ++ ";MOD:" ++ m ++ ";ROLE:" ++ r ++ ";"` extracts exactly `f`, `m` and `r`,
finds no `PWR:` key, and its effects are the two reception lines followed by the frequency
block on `f`, the modulation block on `m` and the role block on `r`, in that order. -/
theorem config_freq_mod_role {F : Type} (p : Platform F) (f m r : Str)
    (hf : ';' ∉ f ∧ ':' ∉ f ∧ NUL ∉ f) (hm : ';' ∉ m ∧ ':' ∉ m ∧ NUL ∉ m)
    (hr : ';' ∉ r ∧ ':' ∉ r ∧ NUL ∉ r)
    (hlen : ("FREQ:".toList ++ f ++ ";MOD:".toList ++ m ++ ";ROLE:".toList ++ r
      ++ ";".toList).length ≤ INT_MAX) :
    lookup (cStr ("FREQ:".toList ++ f ++ ";MOD:".toList ++ m ++ ";ROLE:".toList ++ r
        ++ ";".toList)) "FREQ:".toList 5 = some f
    ∧ lookup (cStr ("FREQ:".toList ++ f ++ ";MOD:".toList ++ m ++ ";ROLE:".toList ++ r
        ++ ";".toList)) "MOD:".toList 4 = some m
    ∧ lookup (cStr ("FREQ:".toList ++ f ++ ";MOD:".toList ++ m ++ ";ROLE:".toList ++ r
        ++ ";".toList)) "PWR:".toList 4 = none
    ∧ lookup (cStr ("FREQ:".toList ++ f ++ ";MOD:".toList ++ m ++ ";ROLE:".toList ++ r
        ++ ";".toList)) "ROLE:".toList 5 = some r
    ∧ ConfigCallbacks.onWrite p ("FREQ:".toList ++ f ++ ";MOD:".toList ++ m
        ++ ";ROLE:".toList ++ r ++ ";".toList)
      = received ("FREQ:".toList ++ f ++ ";MOD:".toList ++ m ++ ";ROLE:".toList ++ r
          ++ ";".toList)
        ++ applyFreq p f ++ applyMod m ++ applyRole r := by
  obtain ⟨hf1, hf2, hf3⟩ := hf
  obtain ⟨hm1, hm2, hm3⟩ := hm
  obtain ⟨hr1, hr2, hr3⟩ := hr
  have hnul : NUL ∉ "FREQ:".toList ++ f ++ ";MOD:".toList ++ m ++ ";ROLE:".toList ++ r
      ++ ";".toList := by
    simp only [List.mem_append, not_or]
    exact ⟨⟨⟨⟨⟨⟨by decide, hf3⟩, by decide⟩, hm3⟩, by decide⟩, hr3⟩, by decide⟩
  have hne : "FREQ:".toList ++ f ++ ";MOD:".toList ++ m ++ ";ROLE:".toList ++ r
      ++ ";".toList ≠ [] := by
    simp [toList_FREQ]
  -- the command, cut at the three keys
  have e1 : "FREQ:".toList ++ f ++ ";MOD:".toList ++ m ++ ";ROLE:".toList ++ r ++ ";".toList
      = [] ++ "FREQ:".toList ++ f ++ ';' :: ("MOD:".toList ++ m ++ ";ROLE:".toList ++ r
          ++ ";".toList) := by
    simp [show ";MOD:".toList = ';' :: "MOD:".toList from rfl]
  have e2 : "FREQ:".toList ++ f ++ ";MOD:".toList ++ m ++ ";ROLE:".toList ++ r ++ ";".toList
      = ("FREQ:".toList ++ f ++ [';']) ++ "MOD:".toList ++ m ++ ';' :: ("ROLE:".toList ++ r
          ++ ";".toList) := by
    simp [show ";MOD:".toList = ';' :: "MOD:".toList from rfl,
      show ";ROLE:".toList = ';' :: "ROLE:".toList from rfl]
  have e3 : "FREQ:".toList ++ f ++ ";MOD:".toList ++ m ++ ";ROLE:".toList ++ r ++ ";".toList
      = ("FREQ:".toList ++ f ++ [';'] ++ ("MOD:".toList ++ m ++ [';'])) ++ "ROLE:".toList
          ++ r ++ ';' :: [] := by
    simp [show ";MOD:".toList = ';' :: "MOD:".toList from rfl,
      show ";ROLE:".toList = ';' :: "ROLE:".toList from rfl, show ";".toList = [';'] from rfl]
  have hcol : ∀ x : Str, ':' ∉ x → ':' ∉ x ++ [';'] := by
    intro x hx; simp [hx]
  have l1 : lookup ("FREQ:".toList ++ f ++ ";MOD:".toList ++ m ++ ";ROLE:".toList ++ r
      ++ ";".toList) "FREQ:".toList 5 = some f := by
    have := lookup_segment [] "FREQ:".toList f
      ("MOD:".toList ++ m ++ ";ROLE:".toList ++ r ++ ";".toList)
      (by decide) (by decide) hf1 (Or.inl rfl) (by simp [toList_FREQ]) (by rw [← e1]; exact hlen)
    rw [← e1] at this
    exact this
  have l2 : lookup ("FREQ:".toList ++ f ++ ";MOD:".toList ++ m ++ ";ROLE:".toList ++ r
      ++ ";".toList) "MOD:".toList 4 = some m := by
    have := lookup_segment ("FREQ:".toList ++ f ++ [';']) "MOD:".toList m
      ("ROLE:".toList ++ r ++ ";".toList)
      (by decide) (by decide) hm1 (sep_end _)
      (by
        simp only [toList_FREQ, toList_MOD]
        simp [List.infix_cons_iff]
        exact not_infix_of_not_mem ':' _ _ (by simp) (hcol f hf2))
      (by rw [← e2]; exact hlen)
    rw [← e2] at this
    exact this
  have l3 : lookup ("FREQ:".toList ++ f ++ ";MOD:".toList ++ m ++ ";ROLE:".toList ++ r
      ++ ";".toList) "ROLE:".toList 5 = some r := by
    have := lookup_segment ("FREQ:".toList ++ f ++ [';'] ++ ("MOD:".toList ++ m ++ [';']))
      "ROLE:".toList r []
      (by decide) (by decide) hr1 (sep_end_append _ _)
      (by
        rw [infix_append_sep _ _ _ (by decide) (by decide) (sep_end _)]
        simp only [toList_FREQ, toList_MOD, toList_ROLE]
        simp [List.infix_cons_iff]
        exact ⟨not_infix_of_not_mem ':' _ _ (by simp) (hcol f hf2),
          not_infix_of_not_mem ':' _ _ (by simp) (hcol m hm2)⟩)
      (by rw [← e3]; exact hlen)
    rw [← e3] at this
    exact this
  have l4 : lookup ("FREQ:".toList ++ f ++ ";MOD:".toList ++ m ++ ";ROLE:".toList ++ r
      ++ ";".toList) "PWR:".toList 4 = none := by
    apply lookup_eq_none
    rw [e3, List.append_assoc, List.append_assoc,
      infix_append_sep _ _ _ (by decide) (by decide) (sep_end_append _ _),
      infix_append_sep _ _ _ (by decide) (by decide) (sep_end _)]
    simp only [toList_FREQ, toList_MOD, toList_ROLE, toList_PWR]
    simp [List.infix_cons_iff]
    exact ⟨⟨not_infix_of_not_mem ':' _ _ (by simp) (hcol f hf2),
      not_infix_of_not_mem ':' _ _ (by simp) (hcol m hm2)⟩,
      not_infix_of_not_mem ':' _ _ (by simp) (hcol r hr2)⟩
  rw [onWrite_of_ne_nil p _ hne, cStr_of_not_mem _ hnul, l1, l2, l3, l4]
  exact ⟨rfl, rfl, rfl, rfl, by simp [block]⟩

/-! ### Case-insensitive comparison -/

theorem zip_all_toLower (s s2 : Str) (h : s.length = s2.length) :
    (s.zip s2).all (fun p => p.1.toLower == p.2.toLower) = true
      ↔ s.map Char.toLower = s2.map Char.toLower := by
  induction s generalizing s2 with
  | nil =>
    cases s2 with
    | nil => simp
    | cons y s2 => simp at h
  | cons x s ih =>
    cases s2 with
    | nil => simp at h
    | cons y s2 =>
      have hl : s.length = s2.length := by simpa using h
      simp [ih s2 hl]

theorem equalsIgnoreCase_iff (s s2 : Str) :
    equalsIgnoreCase s s2 = true ↔ s.map Char.toLower = s2.map Char.toLower := by
  unfold equalsIgnoreCase
  by_cases hl : s.length = s2.length
  · by_cases h0 : s.length = 0
    · have e1 : s = [] := List.length_eq_zero.1 h0
      have e2 : s2 = [] := List.length_eq_zero.1 (by omega)
      simp [e1, e2]
    · simp only [hl, ne_eq, not_true_eq_false, if_false]
      rw [← hl, if_neg h0]
      exact zip_all_toLower s s2 hl
  · simp only [ne_eq, hl, not_false_eq_true, if_true]
    constructor
    · intro h; cases h
    · intro h
      have := congrArg List.length h
      simp at this
      exact absurd this hl

/-- C5 (amended). For a value `v` that contains none of `;`, `:` and NUL, in a command
short enough for `int` indices, the handler run on `"MOD:" ++ v ++ ";"` performs the two
reception lines and the modulation block on `v`: exactly one driver call `setOOK(true)`
when `v` is `OOK` up to ASCII letter case, exactly one driver call `setOOK(false)` when
`v` is `FSK` up to letter case, and otherwise no driver call and the line
"Invalid Modulation Type.". -/
theorem config_mod {F : Type} (p : Platform F) (v : Str)
    (hv : ';' ∉ v ∧ ':' ∉ v ∧ NUL ∉ v)
    (hlen : ("MOD:".toList ++ v ++ ";".toList).length ≤ INT_MAX) :
    ConfigCallbacks.onWrite p ("MOD:".toList ++ v ++ ";".toList)
        = received ("MOD:".toList ++ v ++ ";".toList) ++ applyMod v
    ∧ (v.map Char.toLower = "ook".toList →
        radioCalls (ConfigCallbacks.onWrite p ("MOD:".toList ++ v ++ ";".toList))
          = [Event.setOOK true])
    ∧ (v.map Char.toLower = "fsk".toList →
        radioCalls (ConfigCallbacks.onWrite p ("MOD:".toList ++ v ++ ";".toList))
          = [Event.setOOK false])
    ∧ (v.map Char.toLower ≠ "ook".toList → v.map Char.toLower ≠ "fsk".toList →
        radioCalls (ConfigCallbacks.onWrite p ("MOD:".toList ++ v ++ ";".toList)) = []
        ∧ Event.println "Invalid Modulation Type.".toList
            ∈ ConfigCallbacks.onWrite p ("MOD:".toList ++ v ++ ";".toList)) := by
  obtain ⟨hv1, hv2, hv3⟩ := hv
  have hnul : NUL ∉ "MOD:".toList ++ v ++ ";".toList := by
    simp only [List.mem_append, not_or]
    exact ⟨⟨by decide, hv3⟩, by decide⟩
  have hne : "MOD:".toList ++ v ++ ";".toList ≠ [] := by simp [toList_MOD]
  have e1 : "MOD:".toList ++ v ++ ";".toList = [] ++ "MOD:".toList ++ v ++ ';' :: [] := by
    simp [show ";".toList = [';'] from rfl]
  have hcol : ':' ∉ v ++ [';'] := by simp [hv2]
  have l2 : lookup ("MOD:".toList ++ v ++ ";".toList) "MOD:".toList 4 = some v := by
    have := lookup_segment [] "MOD:".toList v []
      (by decide) (by decide) hv1 (Or.inl rfl) (by simp [toList_MOD]) (by rw [← e1]; exact hlen)
    rw [← e1] at this
    exact this
  have l1 : lookup ("MOD:".toList ++ v ++ ";".toList) "FREQ:".toList 5 = none := by
    apply lookup_eq_none
    simp only [toList_FREQ, toList_MOD, show ";".toList = [';'] from rfl]
    simp [List.infix_cons_iff]
    exact not_infix_of_not_mem ':' _ _ (by simp) hcol
  have l3 : lookup ("MOD:".toList ++ v ++ ";".toList) "PWR:".toList 4 = none := by
    apply lookup_eq_none
    simp only [toList_PWR, toList_MOD, show ";".toList = [';'] from rfl]
    simp [List.infix_cons_iff]
    exact not_infix_of_not_mem ':' _ _ (by simp) hcol
  have l4 : lookup ("MOD:".toList ++ v ++ ";".toList) "ROLE:".toList 5 = none := by
    apply lookup_eq_none
    simp only [toList_ROLE, toList_MOD, show ";".toList = [';'] from rfl]
    simp [List.infix_cons_iff]
    exact not_infix_of_not_mem ':' _ _ (by simp) hcol
  have hrun : ConfigCallbacks.onWrite p ("MOD:".toList ++ v ++ ";".toList)
      = received ("MOD:".toList ++ v ++ ";".toList) ++ applyMod v := by
    rw [onWrite_of_ne_nil p _ hne, cStr_of_not_mem _ hnul, l1, l2, l3, l4]
    simp [block]
  have hook : equalsIgnoreCase v "OOK".toList = true ↔ v.map Char.toLower = "ook".toList :=
    equalsIgnoreCase_iff v "OOK".toList
  have hfsk : equalsIgnoreCase v "FSK".toList = true ↔ v.map Char.toLower = "fsk".toList :=
    equalsIgnoreCase_iff v "FSK".toList
  refine ⟨hrun, ?_, ?_, ?_⟩
  · intro h
    rw [hrun, radioCalls_append, radioCalls_received]
    simp only [applyMod, hook.2 h, if_true]
    rfl
  · intro h
    have hno : ¬ equalsIgnoreCase v "OOK".toList = true := by
      rw [hook, h]; decide
    rw [hrun, radioCalls_append, radioCalls_received]
    simp only [applyMod, hno, hfsk.2 h, if_true, if_false]
    rfl
  · intro h1 h2
    have hno1 : ¬ equalsIgnoreCase v "OOK".toList = true := fun h => h1 (hook.1 h)
    have hno2 : ¬ equalsIgnoreCase v "FSK".toList = true := fun h => h2 (hfsk.1 h)
    rw [hrun, radioCalls_append, radioCalls_received]
    simp only [applyMod, hno1, hno2, if_false]
    exact ⟨rfl, by simp⟩

theorem block_some {F : Type} (v : Str) (body : Str → List (Event F)) :
    block (some v) body = body v := rfl

theorem frequencies_applyFreq {F : Type} (p : Platform F) (a : Str) :
    frequencies (applyFreq p a) = [p.toFloat a] := by
  simp only [applyFreq, frequencies]
  split_ifs <;> rfl

/-- C4 (amended). The handler looks for `FREQ:` once, from the start of the command, and
makes a single `setFrequency` call with the value of the first `FREQ:` segment: when the
command is `pre ++ "FREQ:" ++ a ++ ";" ++ rest`, with `pre` made of complete segments that
do not contain `FREQ:`, whatever `rest` holds (further `FREQ:` segments included) the only
frequency handed to the radio is the one read from `a`. -/
theorem config_first_freq {F : Type} (p : Platform F) (pre a rest : Str)
    (hpre : pre = [] ∨ pre.getLast? = some ';') (hno : ¬ "FREQ:".toList <:+: pre)
    (hnul : NUL ∉ pre) (ha : ';' ∉ a ∧ NUL ∉ a)
    (hlen : (pre ++ "FREQ:".toList ++ a ++ ";".toList ++ rest).length ≤ INT_MAX) :
    frequencies (ConfigCallbacks.onWrite p (pre ++ "FREQ:".toList ++ a ++ ";".toList ++ rest))
      = [p.toFloat a] := by
  obtain ⟨ha1, ha2⟩ := ha
  have hne : pre ++ "FREQ:".toList ++ a ++ ";".toList ++ rest ≠ [] := by simp [toList_FREQ]
  have hn : NUL ∉ pre ++ "FREQ:".toList ++ a ++ ";".toList := by
    simp only [List.mem_append, not_or]
    exact ⟨⟨⟨hnul, by decide⟩, ha2⟩, by decide⟩
  have hc : cStr (pre ++ "FREQ:".toList ++ a ++ ";".toList ++ rest)
      = pre ++ "FREQ:".toList ++ a ++ ';' :: cStr rest := by
    rw [cStr_append_of_not_mem _ _ hn]
    simp [show ";".toList = [';'] from rfl]
  have hl : (pre ++ "FREQ:".toList ++ a ++ ';' :: cStr rest).length ≤ INT_MAX := by
    rw [← hc]
    exact le_trans (cStr_initial _).length_le hlen
  have l1 : lookup (pre ++ "FREQ:".toList ++ a ++ ';' :: cStr rest) "FREQ:".toList 5 = some a :=
    lookup_segment pre "FREQ:".toList a (cStr rest) (by decide) (by decide) ha1 hpre hno hl
  rw [onWrite_of_ne_nil p _ hne, hc, l1]
  simp only [frequencies_append, frequencies_block_mod, frequencies_block_pwr,
    frequencies_block_role, List.append_nil, block_some, frequencies_applyFreq]
  rfl

/-! ### Commands without any of the four keys -/

theorem onWrite_of_no_key {F : Type} (p : Platform F) (value : Str)
    (h1 : ¬ "FREQ:".toList <:+: value) (h2 : ¬ "MOD:".toList <:+: value)
    (h3 : ¬ "PWR:".toList <:+: value) (h4 : ¬ "ROLE:".toList <:+: value) :
    ConfigCallbacks.onWrite p value = if value.length > 0 then received value else [] := by
  by_cases hv : value = []
  · subst hv; rfl
  · have hl : value.length > 0 := List.length_pos.2 hv
    have up : ∀ key : Str, ¬ key <:+: value → ¬ key <:+: cStr value :=
      fun key hk hin => hk (hin.trans (cStr_initial value).isInfix)
    rw [onWrite_of_ne_nil p _ hv, lookup_eq_none _ _ _ (up _ h1), lookup_eq_none _ _ _ (up _ h2),
      lookup_eq_none _ _ _ (up _ h3), lookup_eq_none _ _ _ (up _ h4), if_pos hl]
    simp [block]

/-- C7 (amended). The handler searches the whole command for the texts `FREQ:`, `MOD:`,
`PWR:` and `ROLE:`, not the keys of its segments: a command in which none of the four
texts occurs anywhere makes no Radio call and reports no directive outcome, its only
effects being the two reception lines of a non-empty write. -/
theorem config_no_key {F : Type} (p : Platform F) (value : Str)
    (h : ∀ key ∈ ["FREQ:".toList, "MOD:".toList, "PWR:".toList, "ROLE:".toList],
      ¬ key <:+: value) :
    radioCalls (ConfigCallbacks.onWrite p value) = []
    ∧ ConfigCallbacks.onWrite p value = (if value.length > 0 then received value else []) := by
  have hrun := onWrite_of_no_key p value (h _ (by simp)) (h _ (by simp)) (h _ (by simp))
    (h _ (by simp))
  refine ⟨?_, hrun⟩
  rw [hrun]
  split <;> rfl

/-- Two texts that agree up to their only occurrence of `c` agree before it. -/
theorem append_cons_left_unique (c : Char) (a b a2 b2 : Str) (ha : c ∉ a) (hb : c ∉ b)
    (h : a ++ c :: b = a2 ++ c :: b2) : a = a2 := by
  induction a generalizing a2 with
  | nil =>
    cases a2 with
    | nil => rfl
    | cons x a2 =>
      simp only [List.nil_append, List.cons_append, List.cons.injEq] at h
      exact absurd (h.2 ▸ (by simp : c ∈ a2 ++ c :: b2)) hb
  | cons y a ih =>
    have hy : y ≠ c := fun e => ha (e ▸ List.mem_cons_self y a)
    have ha2 : c ∉ a := fun m => ha (List.mem_cons_of_mem y m)
    cases a2 with
    | nil =>
      simp only [List.nil_append, List.cons_append, List.cons.injEq] at h
      exact absurd h.1 hy
    | cons x a2 =>
      simp only [List.cons_append, List.cons.injEq] at h
      rw [h.1, ih a2 ha2 h.2]

/-- In a text with a single `:`, a key followed by `:` can only sit right before it. -/
theorem suffix_of_infix_colon (k w rest : Str) (hw : ':' ∉ w) (hr : ':' ∉ rest)
    (h : k ++ [':'] <:+: w ++ ':' :: rest) : k <:+ w := by
  obtain ⟨l1, l2, e⟩ := h
  have e2 : w ++ ':' :: rest = (l1 ++ k) ++ ':' :: l2 := by
    rw [← e]; simp [List.append_assoc]
  exact ⟨l1, (append_cons_left_unique ':' w rest (l1 ++ k) l2 hw hr e2).symm⟩

theorem not_mem_of_map_toLower (c : Char) (hc : c.toLower = c) (k2 key : Str)
    (hcase : k2.map Char.toLower = key.map Char.toLower) (hkey : c ∉ key.map Char.toLower) :
    c ∉ k2 := by
  intro hm
  have := List.mem_map_of_mem Char.toLower hm
  rw [hc, hcase] at this
  exact hkey this

theorem not_suffix_of_case_variant (K key k2 : Str)
    (hcase : k2.map Char.toLower = key.map Char.toLower) (hne : k2 ≠ key)
    (hK : K.map Char.toLower <:+ key.map Char.toLower → K = key) : ¬ K <:+ k2 := by
  intro hs
  have h1 : K.map Char.toLower <:+ key.map Char.toLower := by
    rw [← hcase]; exact hs.map _
  have h2 : K = key := hK h1
  have hlen : k2.length = key.length := by
    have := congrArg List.length hcase
    simpa using this
  have h3 : K = k2 := hs.eq_of_length (by rw [h2, hlen])
  exact hne (h3 ▸ h2)

/-- C6 (amended). Key matching is case-sensitive: only the upper-case texts `FREQ:`, `MOD:`,
`PWR:`, `ROLE:` are recognised.  For a key of the vocabulary, any other spelling `k2` of it
that differs only in letter case, and a value `v` without `:`, the handler run on
`k2 ++ ":" ++ v ++ ";"` makes no Radio call and reports no outcome: its effects are the two
reception lines only. -/
theorem config_key_case {F : Type} (p : Platform F) (key k2 v : Str)
    (hkey : key ∈ ["FREQ".toList, "MOD".toList, "PWR".toList, "ROLE".toList])
    (hcase : k2.map Char.toLower = key.map Char.toLower) (hne : k2 ≠ key) (hv : ':' ∉ v) :
    radioCalls (ConfigCallbacks.onWrite p (k2 ++ ":".toList ++ v ++ ";".toList)) = []
    ∧ ConfigCallbacks.onWrite p (k2 ++ ":".toList ++ v ++ ";".toList)
        = received (k2 ++ ":".toList ++ v ++ ";".toList) := by
  have hk2 : ':' ∉ k2 := by
    apply not_mem_of_map_toLower ':' (by decide) k2 key hcase
    simp only [List.mem_cons, List.mem_singleton, List.not_mem_nil, or_false] at hkey
    rcases hkey with e | e | e | e <;> subst e <;> decide
  have hrest : ':' ∉ v ++ ";".toList := by
    simp only [List.mem_append, not_or]
    exact ⟨hv, by decide⟩
  have shape : k2 ++ ":".toList ++ v ++ ";".toList = k2 ++ ':' :: (v ++ ";".toList) := by
    simp [show ":".toList = [':'] from rfl]
  have key_absent : ∀ K : Str,
      (K.map Char.toLower <:+ key.map Char.toLower → K = key) →
      ¬ K ++ [':'] <:+: k2 ++ ":".toList ++ v ++ ";".toList := by
    intro K hK hin
    rw [shape] at hin
    exact not_suffix_of_case_variant K key k2 hcase hne hK
      (suffix_of_infix_colon K k2 _ hk2 hrest hin)
  have h1 : ¬ "FREQ:".toList <:+: k2 ++ ":".toList ++ v ++ ";".toList := by
    apply key_absent "FREQ".toList
    simp only [List.mem_cons, List.mem_singleton, List.not_mem_nil, or_false] at hkey
    rcases hkey with e | e | e | e <;> subst e <;> decide
  have h2 : ¬ "MOD:".toList <:+: k2 ++ ":".toList ++ v ++ ";".toList := by
    apply key_absent "MOD".toList
    simp only [List.mem_cons, List.mem_singleton, List.not_mem_nil, or_false] at hkey
    rcases hkey with e | e | e | e <;> subst e <;> decide
  have h3 : ¬ "PWR:".toList <:+: k2 ++ ":".toList ++ v ++ ";".toList := by
    apply key_absent "PWR".toList
    simp only [List.mem_cons, List.mem_singleton, List.not_mem_nil, or_false] at hkey
    rcases hkey with e | e | e | e <;> subst e <;> decide
  have h4 : ¬ "ROLE:".toList <:+: k2 ++ ":".toList ++ v ++ ";".toList := by
    apply key_absent "ROLE".toList
    simp only [List.mem_cons, List.mem_singleton, List.not_mem_nil, or_false] at hkey
    rcases hkey with e | e | e | e <;> subst e <;> decide
  have hrun := onWrite_of_no_key p _ h1 h2 h3 h4
  have hl : (k2 ++ ":".toList ++ v ++ ";".toList).length > 0 := by
    simp [show ";".toList = [';'] from rfl]
  rw [if_pos hl] at hrun
  exact ⟨by rw [hrun]; rfl, hrun⟩

/-! ### A directive found in a complete prefix is not changed by what follows -/

theorem strstr_some_le (pat s : Str) (i : Nat) (h : strstr pat s = some i) :
    i + pat.length ≤ s.length := by
  induction s generalizing i with
  | nil =>
    by_cases hp : pat <+: []
    · have : pat = [] := by simpa using hp
      simp [strstr, this] at h
      subst this; omega
    · simp [strstr, hp] at h
  | cons c t ih =>
    by_cases hp : pat <+: c :: t
    · rw [strstr_at_start _ _ hp] at h
      have := hp.length_le
      simp only [Option.some.injEq] at h
      omega
    · rw [strstr_cons_neg _ _ _ hp] at h
      cases hk : strstr pat t with
      | none => simp [hk] at h
      | some j =>
        simp [hk] at h
        have := ih j hk
        simp only [List.length_cons]
        omega

theorem strchr_some_of_mem (ch : Char) (s : Str) (h : ch ∈ s) : ∃ k, strchr ch s = some k := by
  cases hk : strchr ch s with
  | some k => exact ⟨k, rfl⟩
  | none =>
    exfalso
    induction s with
    | nil => simp at h
    | cons x s ih =>
      by_cases hx : x = ch
      · simp [strchr, hx] at hk
      · simp only [strchr, hx, if_false, Option.map_eq_none'] at hk
        rcases List.mem_cons.1 h with e | m
        · exact hx e.symm
        · exact ih m hk

theorem substring_append (c t : Str) (l r : Nat) (hl : l ≤ c.length) (hr : r ≤ c.length) :
    substring (c ++ t) l r = substring c l r := by
  unfold substring
  simp only [List.length_append]
  by_cases hlr : l > r
  · simp only [hlr, if_true]
    have h3 : ¬ (l > c.length + t.length) := by omega
    have h4 : ¬ (l > c.length) := by omega
    by_cases h1 : r ≥ c.length
    · have : l = r := by omega
      omega
    · have h2 : ¬ (r ≥ c.length + t.length) := by omega
      simp only [h1, h2, h3, h4, if_false]
      rw [List.drop_append_of_le_length (by omega),
        List.take_append_of_le_length (by simp only [List.length_drop]; omega)]
  · simp only [hlr, if_false]
    have h3 : ¬ (r > c.length + t.length) := by omega
    have h4 : ¬ (r > c.length) := by omega
    by_cases h1 : l ≥ c.length
    · have e : r - l = 0 := by omega
      simp only [h1, h3, if_true, if_false, e, List.take_zero]
      split <;> rfl
    · have h2 : ¬ (l ≥ c.length + t.length) := by omega
      simp only [h1, h2, h3, h4, if_false]
      rw [List.drop_append_of_le_length (by omega),
        List.take_append_of_le_length (by simp only [List.length_drop]; omega)]

theorem lookup_append_sep (c t key : Str) (skip : Nat)
    (hk : ';' ∉ key) (hne : key ≠ []) (hskip : skip ≤ key.length)
    (hc : c.getLast? = some ';') (ht : ¬ key <:+: t) :
    lookup (c ++ t) key skip = lookup c key skip := by
  have hcne : c ≠ [] := by
    intro e; simp [e] at hc
  have hctne : c ++ t ≠ [] := by simp [hcne]
  have hs : strstr key (c ++ t) = strstr key c := by
    rw [strstr_append_sep key hk hne t c (Or.inr hc), (strstr_eq_none_iff key t).2 ht]
    cases strstr key c <;> rfl
  cases hi : strstr key c with
  | none =>
    rw [hi] at hs
    simp [lookup, indexOf_eq_neg_one _ _ hs, indexOf_eq_neg_one _ _ hi]
  | some i =>
    rw [hi] at hs
    have hle := strstr_some_le key c i hi
    have hkl : 0 < key.length := List.length_pos.2 hne
    have hu : toUnsigned (i : Int) ≤ i := toUnsigned_le i
    have hlt : toUnsigned (i : Int) < c.length := by omega
    have hmem : ';' ∈ c.drop (toUnsigned (i : Int)) := by
      apply List.mem_of_getLast?_eq_some
      rw [List.getLast?_drop, if_neg (by omega)]
      exact hc
    obtain ⟨k, hk2⟩ := strchr_some_of_mem ';' _ hmem
    have hkb := strchr_lt ';' _ k hk2
    simp only [List.length_drop] at hkb
    have hstop1 : indexOfCharFrom c ';' (toUnsigned (i : Int))
        = ((toUnsigned (i : Int) + k : Nat) : Int) := by
      unfold indexOfCharFrom
      rw [if_neg (by omega), hk2]
    have hstop2 : indexOfCharFrom (c ++ t) ';' (toUnsigned (i : Int))
        = ((toUnsigned (i : Int) + k : Nat) : Int) := by
      unfold indexOfCharFrom
      rw [if_neg (by simp only [List.length_append]; omega),
        List.drop_append_of_le_length (by omega), strchr_append_of_mem _ _ _ hmem, hk2]
    have hneg : ((i : Nat) : Int) ≠ -1 := by omega
    have hL : toUnsigned (((i : Nat) : Int) + (skip : Nat)) ≤ c.length := by
      rw [← Int.natCast_add]
      have := toUnsigned_le (i + skip)
      omega
    have hR : toUnsigned ((toUnsigned (i : Int) + k : Nat) : Int) ≤ c.length := by
      have := toUnsigned_le (toUnsigned (i : Int) + k)
      omega
    simp only [lookup, indexOf_eq _ _ _ hs hctne, indexOf_eq _ _ _ hi hcne, hneg, ne_eq,
      not_false_eq_true, if_true, hstop1, hstop2]
    rw [substring_append c t _ _ hL hR]

theorem radioCalls_onWrite {F : Type} (p : Platform F) (value : Str) (h : value ≠ []) :
    radioCalls (ConfigCallbacks.onWrite p value)
      = radioCalls (block (lookup (cStr value) "FREQ:".toList 5) (applyFreq p))
        ++ radioCalls (block (lookup (cStr value) "MOD:".toList 4) (applyMod : Str → List (Event F))) := by
  rw [onWrite_of_ne_nil p value h]
  simp only [radioCalls_append, radioCalls_received, radioCalls_block_pwr,
    radioCalls_block_role, List.nil_append, List.append_nil]

/-- C8. The power directive never reaches the radio: for a command `c` that is empty or
ends with `;` and a value `v` without `;` and `:`, the handler makes the same Radio calls on
`c ++ "PWR:" ++ v ++ ";"` as on `c` alone, whatever `v` is; and on `"PWR:10;"` its effects are
the two reception lines and the not-implemented note, with no Radio call. -/
theorem config_pwr_not_forwarded {F : Type} (p : Platform F) (c v : Str)
    (hc : c = [] ∨ c.getLast? = some ';') (hv : ';' ∉ v ∧ ':' ∉ v) :
    radioCalls (ConfigCallbacks.onWrite p (c ++ "PWR:".toList ++ v ++ ";".toList))
      = radioCalls (ConfigCallbacks.onWrite p c)
    ∧ ConfigCallbacks.onWrite p "PWR:10;".toList
      = received "PWR:10;".toList ++ [Event.printfPower (p.toInt "10".toList)]
    ∧ radioCalls (ConfigCallbacks.onWrite p "PWR:10;".toList) = [] := by
  obtain ⟨hv1, hv2⟩ := hv
  refine ⟨?_, rfl, rfl⟩
  have hne : c ++ "PWR:".toList ++ v ++ ";".toList ≠ [] := by simp [toList_PWR]
  have hshape : c ++ "PWR:".toList ++ v ++ ";".toList = c ++ ("PWR:".toList ++ (v ++ [';'])) := by
    simp [show ";".toList = [';'] from rfl]
  -- the C string of the appended directive holds neither `FREQ:` nor `MOD:`
  have hcol : ':' ∉ cStr (v ++ [';']) :=
    cStr_not_mem_of_not_mem ':' _ (by simp [hv2])
  have htail : cStr ("PWR:".toList ++ (v ++ [';'])) = "PWR:".toList ++ cStr (v ++ [';']) :=
    cStr_append_of_not_mem _ _ (by decide)
  have hfreq : ¬ "FREQ:".toList <:+: "PWR:".toList ++ cStr (v ++ [';']) := by
    simp only [toList_FREQ, toList_PWR]
    simp [List.infix_cons_iff]
    exact not_infix_of_not_mem ':' _ _ (by simp) hcol
  have hmod : ¬ "MOD:".toList <:+: "PWR:".toList ++ cStr (v ++ [';']) := by
    simp only [toList_MOD, toList_PWR]
    simp [List.infix_cons_iff]
    exact not_infix_of_not_mem ':' _ _ (by simp) hcol
  rw [radioCalls_onWrite p _ hne, hshape]
  rcases hc with hc | hc
  · subst hc
    rw [List.nil_append, htail, lookup_eq_none _ _ _ hfreq, lookup_eq_none _ _ _ hmod]
    rfl
  · have hcne : c ≠ [] := by
      intro e; simp [e] at hc
    rw [radioCalls_onWrite p c hcne]
    by_cases hnul : NUL ∈ c
    · rw [cStr_append_of_mem _ _ hnul]
    · rw [cStr_append_of_not_mem _ _ hnul, htail, cStr_of_not_mem _ hnul,
        lookup_append_sep c _ "FREQ:".toList 5 (by decide) (by decide) (by decide) hc hfreq,
        lookup_append_sep c _ "MOD:".toList 4 (by decide) (by decide) (by decide) hc hmod]

/-! ### Session layer -/

/-- C3. In any sequence of handshake writes, started in any state, each write with a
non-empty payload emits exactly one handshake-response notification, of value
"Handshake_OK", and each write with an empty payload emits none; what came before does
not matter. -/
theorem handshake_responses (s : State) (ps : List Str) :
    (run s (ps.map Input.handshakeWrite)).2.map (notified Channel.handshakeTx)
      = ps.map (fun v => if v.length > 0 then ["Handshake_OK".toList] else []) := by
  induction ps generalizing s with
  | nil => rfl
  | cons v ps ih =>
    simp only [List.map_cons, run, step]
    rw [ih]
    by_cases hv : v.length > 0
    · simp only [HandshakeCallbacks.onWrite, hv, if_true]
      rfl
    · simp only [HandshakeCallbacks.onWrite, hv, if_false]
      rfl

theorem loop_disconnected (q : State) (t1 t2 : Nat) (hq : q.deviceConnected = false) :
    loop q t1 t2 = (q, []) := by
  simp [loop, hq]

theorem loop_empty_slot (q : State) (t1 t2 : Nat) (hq : q.messageValue = []) :
    (loop q t1 t2).1.messageValue = [] ∧ notified Channel.message (loop q t1 t2).2 = [] := by
  unfold loop
  by_cases hc : q.deviceConnected = true
  · simp [hc, hq, notified]
  · simp [hc, hq, notified]

theorem ticks_empty_slot (ticks : List (Nat × Nat)) :
    ∀ q : State, q.messageValue = [] →
      (run q (ticks.map (fun t => Input.tick t.1 t.2))).2.map (notified Channel.message)
        = List.replicate ticks.length [] := by
  induction ticks with
  | nil => intro q _; rfl
  | cons t ticks ih =>
    intro q hq
    have h := loop_empty_slot q t.1 t.2 hq
    simp only [List.map_cons, run, step, List.length_cons, List.replicate_succ]
    rw [ih _ h.1, h.2]

/-- C2 (amended). The message-write handler sends no acknowledgment itself; the
acknowledgment comes from `loop`.  From a connected state, a write of a non-empty payload
emits no message-ack notification, and the first pass of `loop` after it emits exactly one,
"ESP32 ACK: " followed by the clock reading; an empty write emits none, and neither do the
passes of `loop` that follow it. -/
theorem message_ack_on_tick (s : State) (pl : Str) (t1 t2 : Nat) (ticks : List (Nat × Nat))
    (hs : s.deviceConnected = true) (hp : pl ≠ []) :
    notified Channel.message (MessageCallbacks.onWrite s pl).2 = []
    ∧ (run s [Input.messageWrite pl, Input.tick t1 t2]).2.map (notified Channel.message)
        = [[], [cStr ("ESP32 ACK: ".toList ++ decimal t2)]]
    ∧ (run s (Input.messageWrite [] :: ticks.map (fun t => Input.tick t.1 t.2))).2.map
        (notified Channel.message) = List.replicate (ticks.length + 1) [] := by
  have hl : pl.length > 0 := List.length_pos.2 hp
  have he : pl.isEmpty = false := by
    cases pl with
    | nil => exact absurd rfl hp
    | cons x xs => rfl
  refine ⟨?_, ?_, ?_⟩
  · simp [MessageCallbacks.onWrite, hl, notified]
  · simp [run, step, MessageCallbacks.onWrite, hl, loop, hs, he, notified]
  · simp only [run, step, List.map_cons, List.replicate_succ]
    rw [ticks_empty_slot ticks _ (by simp [MessageCallbacks.onWrite])]
    simp [MessageCallbacks.onWrite, notified]

/-- After a non-empty message write, every pass of `loop` run while connected sends an
acknowledgment: the acknowledgment text itself is left in the message characteristic and
is found, non-empty, by the next pass. -/
theorem ack_on_every_tick (ticks : List (Nat × Nat)) :
    ∀ q : State, q.deviceConnected = true → q.messageValue ≠ [] →
      (run q (ticks.map (fun t => Input.tick t.1 t.2))).2.map
        (fun es => (notified Channel.message es).length) = List.replicate ticks.length 1 := by
  induction ticks with
  | nil => intro q _ _; rfl
  | cons t ticks ih =>
    intro q hc hm
    have he : q.messageValue.isEmpty = false := by
      cases h : q.messageValue with
      | nil => exact absurd h hm
      | cons x xs => rfl
    have hack : cStr ("ESP32 ACK: ".toList ++ decimal t.2) ≠ [] := by
      have : "ESP32 ACK: ".toList ++ decimal t.2 = 'E' :: ("SP32 ACK: ".toList ++ decimal t.2) :=
        rfl
      rw [this, cStr, List.takeWhile_cons]
      simp [NUL]
    simp only [List.map_cons, run, step, List.length_cons, List.replicate_succ]
    rw [ih (loop q t.1 t.2).1 (by simp [loop, hc, he]) (by simpa [loop, hc, he] using hack)]
    simp [loop, hc, he, notified]

/-- C10. From every state `s`, `onDisconnect` clears the connection flag and instructs the
transport exactly once to restart advertising, and `onConnect` sets the flag.  In every
state `q` whose flag is cleared a pass of `loop` changes nothing and emits nothing, so
neither a log notification nor a message acknowledgment; after `onConnect` from such a
state, whatever the handshake characteristic holds, a pass of `loop` emits a log
notification again. -/
theorem disconnect_then_connect (s q : State) (t1 t2 : Nat) (hq : q.deviceConnected = false) :
    (MyServerCallbacks.onDisconnect s).1.deviceConnected = false
    ∧ advertisingRestarts (MyServerCallbacks.onDisconnect s).2 = 1
    ∧ (MyServerCallbacks.onConnect s).1.deviceConnected = true
    ∧ loop q t1 t2 = (q, [])
    ∧ (MyServerCallbacks.onConnect q).1.deviceConnected = true
    ∧ notified Channel.log (loop (MyServerCallbacks.onConnect q).1 t1 t2).2
        = [cStr ("Log data from ESP32: ".toList ++ decimal t1)] := by
  refine ⟨rfl, rfl, rfl, loop_disconnected q t1 t2 hq, rfl, ?_⟩
  simp only [MyServerCallbacks.onConnect, loop, if_true]
  split <;> simp [notified]

/-! ### Concrete runs -/

/-- The three-directive command of C1 on the bench: `FREQ:433.0;MOD:OOK;ROLE:Transmitter;`
gives `setFrequency(433.0)`, then `setOOK(true)`, then the accepted role. -/
theorem config_freq_mod_role_witness :
    (';' ∉ "433.0".toList ∧ ':' ∉ "433.0".toList ∧ NUL ∉ "433.0".toList)
    ∧ ConfigCallbacks.onWrite bench "FREQ:433.0;MOD:OOK;ROLE:Transmitter;".toList
      = received "FREQ:433.0;MOD:OOK;ROLE:Transmitter;".toList
        ++ [Event.setFrequency 433, Event.printfFrequencySet 433,
            Event.setOOK true, Event.println "Modulation set to OOK.".toList,
            Event.println "Role set to Transmitter.".toList] :=
  ⟨by decide,
   (config_freq_mod_role bench "433.0".toList "OOK".toList "Transmitter".toList
      (by decide) (by decide) (by decide) (by decide)).2.2.2.2⟩

/-- C1 fails on a value that holds a NUL: the command is read as a C string and ends there.
With `f = "433.0\0"` the handler extracts `433.0`, not `f`, and finds neither `MOD:` nor
`ROLE:`. -/
theorem config_freq_mod_role_counterexample :
    (';' ∉ "433.0".toList ++ [NUL] ∧ ':' ∉ "433.0".toList ++ [NUL])
    ∧ lookup (cStr ("FREQ:".toList ++ ("433.0".toList ++ [NUL]) ++ ";MOD:".toList
        ++ "OOK".toList ++ ";ROLE:".toList ++ "Transmitter".toList ++ ";".toList))
        "FREQ:".toList 5 ≠ some ("433.0".toList ++ [NUL])
    ∧ lookup (cStr ("FREQ:".toList ++ ("433.0".toList ++ [NUL]) ++ ";MOD:".toList
        ++ "OOK".toList ++ ";ROLE:".toList ++ "Transmitter".toList ++ ";".toList))
        "MOD:".toList 4 = none
    ∧ ConfigCallbacks.onWrite bench ("FREQ:".toList ++ ("433.0".toList ++ [NUL])
        ++ ";MOD:".toList ++ "OOK".toList ++ ";ROLE:".toList ++ "Transmitter".toList
        ++ ";".toList)
      = [Event.println "Received Configuration Command:".toList,
         Event.println "FREQ:433.0".toList,
         Event.setFrequency 433, Event.printfFrequencySet 433] := by
  refine ⟨by decide, by decide, by decide, by decide⟩

/-- The acknowledgment of C2 on a concrete run: a write of "hi" while connected, then one pass of
`loop` at clock reading 1000. -/
theorem message_ack_on_tick_witness :
    (State.mk true [] [] []).deviceConnected = true ∧ "hi".toList ≠ []
    ∧ (run ⟨true, [], [], []⟩ [Input.messageWrite "hi".toList, Input.tick 1000 1000]).2.map
        (notified Channel.message) = [[], ["ESP32 ACK: 1000".toList]] :=
  ⟨rfl, by decide,
   (message_ack_on_tick ⟨true, [], [], []⟩ "hi".toList 1000 1000 [] rfl (by decide)).2.1⟩

/-- C2 fails with no tick at all: a write of "hi" followed by zero passes of `loop` emits
zero acknowledgments, not one. -/
theorem message_ack_counterexample :
    ((run ⟨true, [], [], []⟩ [Input.messageWrite "hi".toList]).2.map
        (fun es => (notified Channel.message es).length)).sum = 0 := by
  decide

/-- Two passes of `loop` after one write of "hi": each pass sends an acknowledgment. -/
theorem message_ack_two_ticks :
    (run ⟨true, [], [], []⟩
        [Input.messageWrite "hi".toList, Input.tick 1000 1000, Input.tick 2000 2000]).2.map
        (notified Channel.message)
      = [[], ["ESP32 ACK: 1000".toList], ["ESP32 ACK: 2000".toList]] := by
  decide

/-- The first-occurrence rule of C4 on a concrete run: in `FREQ:433.0;FREQ:868.0;` the radio
is given 433.0 only. -/
theorem config_first_freq_witness :
    (';' ∉ "433.0".toList ∧ NUL ∉ "433.0".toList)
    ∧ frequencies (ConfigCallbacks.onWrite bench "FREQ:433.0;FREQ:868.0;".toList) = [433] :=
  ⟨by decide,
   config_first_freq bench [] "433.0".toList "FREQ:868.0;".toList (Or.inl rfl) (by decide)
     (by decide) (by decide) (by decide)⟩

/-- C4 fails on its own example: for `FREQ:433.0;FREQ:868.0;` the handler calls
`setFrequency` once, with 433.0, so the last call does not carry 868.0. -/
theorem config_last_freq_counterexample :
    radioCalls (ConfigCallbacks.onWrite bench "FREQ:433.0;FREQ:868.0;".toList)
      = [Event.setFrequency 433]
    ∧ (frequencies (ConfigCallbacks.onWrite bench "FREQ:433.0;FREQ:868.0;".toList)).getLast?
      ≠ some 868 := by
  refine ⟨by decide, by decide⟩

/-- The modulation directive of C5 on concrete runs: `MOD:ook;` and `MOD:OOK;` make the same
single call `setOOK(true)`, and `MOD:XYZ;` makes none. -/
theorem config_mod_witness :
    (';' ∉ "ook".toList ∧ ':' ∉ "ook".toList ∧ NUL ∉ "ook".toList)
    ∧ radioCalls (ConfigCallbacks.onWrite bench "MOD:ook;".toList) = [Event.setOOK true]
    ∧ radioCalls (ConfigCallbacks.onWrite bench "MOD:OOK;".toList) = [Event.setOOK true]
    ∧ radioCalls (ConfigCallbacks.onWrite bench "MOD:XYZ;".toList) = [] :=
  ⟨by decide,
   (config_mod bench "ook".toList (by decide) (by decide)).2.1 (by decide),
   (config_mod bench "OOK".toList (by decide) (by decide)).2.1 (by decide),
   ((config_mod bench "XYZ".toList (by decide) (by decide)).2.2.2 (by decide) (by decide)).1⟩

/-- C5 fails on a value that holds a NUL: `v = "OOK\0"` is neither `OOK` nor `FSK` up to
letter case, yet the handler, which reads the command as a C string, calls
`setOOK(true)`. -/
theorem config_mod_counterexample :
    (';' ∉ "OOK".toList ++ [NUL] ∧ ':' ∉ "OOK".toList ++ [NUL])
    ∧ ("OOK".toList ++ [NUL]).map Char.toLower ≠ "ook".toList
    ∧ ("OOK".toList ++ [NUL]).map Char.toLower ≠ "fsk".toList
    ∧ radioCalls (ConfigCallbacks.onWrite bench
        ("MOD:".toList ++ ("OOK".toList ++ [NUL]) ++ ";".toList)) = [Event.setOOK true] := by
  refine ⟨by decide, by decide, by decide, by decide⟩

/-- Case-sensitive keys (C6) on a concrete run: `freq:433.0;` only prints the two reception
lines. -/
theorem config_key_case_witness :
    ("freq".toList.map Char.toLower = "FREQ".toList.map Char.toLower
      ∧ "freq".toList ≠ "FREQ".toList ∧ ':' ∉ "433.0".toList)
    ∧ radioCalls (ConfigCallbacks.onWrite bench "freq:433.0;".toList) = []
    ∧ ConfigCallbacks.onWrite bench "freq:433.0;".toList = received "freq:433.0;".toList :=
  ⟨by decide,
   config_key_case bench "FREQ".toList "freq".toList "433.0".toList (by decide) (by decide)
     (by decide) (by decide)⟩

/-- C6 fails on its own example: `freq:433.0;` makes no Radio call, `FREQ:433.0;` makes
`setFrequency(433.0)`. -/
theorem config_key_case_counterexample :
    radioCalls (ConfigCallbacks.onWrite bench "freq:433.0;".toList) = []
    ∧ radioCalls (ConfigCallbacks.onWrite bench "FREQ:433.0;".toList)
      = [Event.setFrequency 433] := by
  refine ⟨by decide, by decide⟩

/-- A command without any key text (C7) on a concrete run: `XYZ:433.0;` holds none of the
four texts. -/
theorem config_no_key_witness :
    radioCalls (ConfigCallbacks.onWrite bench "XYZ:433.0;".toList) = []
    ∧ ConfigCallbacks.onWrite bench "XYZ:433.0;".toList = received "XYZ:433.0;".toList :=
  config_no_key bench "XYZ:433.0;".toList (by decide)

/-- C7 fails on its own examples: the keys `XFREQ` and `AMOD` are not in the vocabulary,
yet `XFREQ:433.0;` calls `setFrequency(433.0)` and `AMOD:OOK;` calls `setOOK(true)`. -/
theorem config_unrecognized_key_counterexample :
    radioCalls (ConfigCallbacks.onWrite bench "XFREQ:433.0;".toList)
      = [Event.setFrequency 433]
    ∧ radioCalls (ConfigCallbacks.onWrite bench "AMOD:OOK;".toList) = [Event.setOOK true] := by
  refine ⟨by decide, by decide⟩

/-- The power directive of C8 on concrete runs: appending `PWR:10;` to `FREQ:433.0;MOD:FSK;`
leaves the Radio calls as they were, and `PWR:10;` alone yields the note for power 10. -/
theorem config_pwr_not_forwarded_witness :
    ("FREQ:433.0;MOD:FSK;".toList.getLast? = some ';' ∧ ';' ∉ "10".toList ∧ ':' ∉ "10".toList)
    ∧ radioCalls (ConfigCallbacks.onWrite bench "FREQ:433.0;MOD:FSK;PWR:10;".toList)
      = radioCalls (ConfigCallbacks.onWrite bench "FREQ:433.0;MOD:FSK;".toList)
    ∧ ConfigCallbacks.onWrite bench "PWR:10;".toList
      = received "PWR:10;".toList ++ [Event.printfPower 10] :=
  ⟨by decide,
   (config_pwr_not_forwarded bench "FREQ:433.0;MOD:FSK;".toList "10".toList
      (Or.inr (by decide)) (by decide)).1,
   (config_pwr_not_forwarded bench [] "10".toList (Or.inl rfl) (by decide)).2.1⟩

/-- The empty configuration write of C9 on the bench. -/
theorem config_empty_noop_witness :
    ("".toList).length = 0 ∧ ConfigCallbacks.onWrite bench "".toList = [] :=
  ⟨rfl, (config_empty_noop bench "".toList rfl).1⟩

/-- The connection cycle of C10 on concrete states: a connected state that holds a handshake
response, and a disconnected state that holds none. -/
theorem disconnect_then_connect_witness :
    (State.mk false [] [] []).deviceConnected = false
    ∧ (MyServerCallbacks.onDisconnect ⟨true, [], [], "Handshake_OK".toList⟩).1.deviceConnected
      = false
    ∧ advertisingRestarts
        (MyServerCallbacks.onDisconnect ⟨true, [], [], "Handshake_OK".toList⟩).2 = 1
    ∧ loop ⟨false, [], [], []⟩ 1000 1000 = (⟨false, [], [], []⟩, [])
    ∧ notified Channel.log
        (loop (MyServerCallbacks.onConnect ⟨false, [], [], []⟩).1 1000 1000).2
      = ["Log data from ESP32: 1000".toList] :=
  have h := disconnect_then_connect ⟨true, [], [], "Handshake_OK".toList⟩ ⟨false, [], [], []⟩
    1000 1000 rfl
  ⟨rfl, h.1, h.2.1, h.2.2.2.1, h.2.2.2.2.2⟩

end Bridge
